import Mathlib

/-!
Verification of the taajanews multilingual news backend.

This file gives a shallow embedding, in Lean, of the localization,
validation, slug, engagement and workflow logic of the repository
(Express routes and Mongoose model hooks), and proves the specification's
testable properties about that embedding.  Multilingual `Map` fields are
embedded as association lists from language code to string (preserving
insertion order, as JS `Map`/object iteration does), MongoDB collections
as Lean lists of documents, and JS truthiness (the empty string, `null`,
`undefined` and `0` being falsy) is modelled explicitly.
-/

namespace TaajaNews

/-- Association-list lookup standing for `Map.prototype.get` or property
access on a plain object: the first binding for the key, if any (`none`
models JS `undefined`). -/
def mapGet (field : List (String × String)) (key : String) : Option String :=
  (field.find? (fun p => p.1 == key)).map (fun p => p.2)

/-- JS `a || b` on an optional string: the value when present and truthy
(non-empty), otherwise the fallback. -/
def jsOr (a : Option String) (b : String) : String :=
  match a with
  | some v => if v = "" then b else v
  | none => b

/-- JS truthiness filter on an optional string: `some v` exactly when the
value is present and non-empty. -/
def jsTruthyOpt (o : Option String) : Option String :=
  match o with
  | some s => if s = "" then none else some s
  | none => none

/-- JS `a || b` where both sides are possibly-absent strings (the left
operand is taken when truthy, otherwise the right operand is returned
as-is). -/
def jsOrOpt (a b : Option String) : Option String :=
  match jsTruthyOpt a with
  | some v => some v
  | none => b

/-- Backend `getLocalizedValue` helper (article.routes.js; the frontend
`languageService.js` exports a helper with the same body):
`field.get(lang) || field.get(fallbackLang) || [...field.values()][0] || ''`,
i.e. requested language, else fallback language, else first stored value,
else the empty string, with JS truthiness (empty string falsy) at each
step. -/
def getLocalizedValue (field : List (String × String)) (lang fallbackLang : String) : String :=
  jsOr (mapGet field lang) (jsOr (mapGet field fallbackLang) (jsOr (field.head?.map (fun p => p.2)) ""))

/-- First available value of a multilingual field, per the spec's words:
the first value in the mapping, or the empty string when the mapping is
empty. -/
def firstAvailableSpec (field : List (String × String)) : String :=
  match field.head? with
  | some p => p.2
  | none => ""

/-- Resolution tail per the spec's words: the default (fallback) language's
value if present and non-empty, otherwise the first available value. -/
def defaultOrFirstSpec (field : List (String × String)) (fallbackLang : String) : String :=
  match mapGet field fallbackLang with
  | some v => if v = "" then firstAvailableSpec field else v
  | none => firstAvailableSpec field

/-- Resolution order stated by the spec: the requested language's value if
present and non-empty; otherwise the default language's value if present
and non-empty; otherwise the first available value; otherwise the empty
string. -/
def localizedValueSpec (field : List (String × String)) (lang fallbackLang : String) : String :=
  match mapGet field lang with
  | some v => if v = "" then defaultOrFirstSpec field fallbackLang else v
  | none => defaultOrFirstSpec field fallbackLang

/-- C1: `getLocalizedValue` implements the spec's resolution order
(requested language → default language → first available value → empty
string, skipping entries that are present but empty), and in particular a
request for an unsupported language code on a field whose default-language
value is present and non-empty returns that default value, never the
empty string. -/
theorem C1_getLocalizedValue_resolution :
    (∀ field lang fallbackLang,
      getLocalizedValue field lang fallbackLang = localizedValueSpec field lang fallbackLang)
    ∧ (∀ field lang fallbackLang v,
        mapGet field lang = none →
        mapGet field fallbackLang = some v → v ≠ "" →
        getLocalizedValue field lang fallbackLang = v ∧
        getLocalizedValue field lang fallbackLang ≠ "") := by
  have htail : ∀ field : List (String × String),
      jsOr (field.head?.map (fun p => p.2)) "" = firstAvailableSpec field := by
    intro field
    cases h : field.head? with
    | none => simp only [firstAvailableSpec, h]; rfl
    | some p =>
      simp only [Option.map_some', jsOr, firstAvailableSpec, h]
      split <;> simp_all
  have hmain : ∀ field lang fallbackLang,
      getLocalizedValue field lang fallbackLang = localizedValueSpec field lang fallbackLang := by
    intro field lang fb
    unfold getLocalizedValue localizedValueSpec defaultOrFirstSpec
    rw [htail field]
    cases mapGet field lang <;> cases mapGet field fb <;> rfl
  refine ⟨hmain, ?_⟩
  intro field lang fb v hnone hsome hne
  have : getLocalizedValue field lang fb = v := by
    unfold getLocalizedValue jsOr
    rw [hnone, hsome]
    simp [hne]
  exact ⟨this, this ▸ hne⟩

/-- Witness for C1: the field maps en → Hello and hi → Namaste; requesting
the unsupported code fr with fallback en yields Hello. -/
theorem C1_witness :
    getLocalizedValue [("en", "Hello"), ("hi", "Namaste")] "fr" "en" = "Hello" :=
  (C1_getLocalizedValue_resolution.2 [("en", "Hello"), ("hi", "Namaste")] "fr" "en" "Hello"
    rfl rfl (by decide)).1

/-- JS whitespace (the `\s` regex class and the set trimmed by
`String.prototype.trim`): ASCII whitespace plus the Unicode space
separators, line/paragraph separators and the BOM. -/
def jsIsSpace (c : Char) : Bool :=
  c == ' ' || c == '\t' || c == '\n' || c == '\r' ||
  c.toNat == 11 || c.toNat == 12 || c.toNat == 0xa0 || c.toNat == 0x1680 ||
  (0x2000 ≤ c.toNat && c.toNat ≤ 0x200a) || c.toNat == 0x2028 ||
  c.toNat == 0x2029 || c.toNat == 0x202f || c.toNat == 0x205f ||
  c.toNat == 0x3000 || c.toNat == 0xfeff

/-- JS `String.prototype.trim` on a list of characters: drop leading and
trailing whitespace. -/
def jsTrimList (l : List Char) : List Char :=
  ((l.dropWhile jsIsSpace).reverse.dropWhile jsIsSpace).reverse

/-- JS `String.prototype.trim`. -/
def jsTrim (s : String) : String := String.mk (jsTrimList s.data)

/-- The async `validateDefaultLanguage` validator shared by the Article,
Category, City and Area schemas: the multilingual map must be non-empty,
contain an entry for the cached default language code, and that entry must
have positive length after trimming. -/
def validateDefaultLanguage (map : List (String × String)) (defaultLang : String) : Bool :=
  if map.isEmpty then false
  else
    match mapGet map defaultLang with
    | some v => decide (0 < (jsTrim v).length)
    | none => false

theorem forall_mem_dropWhile_iff (p : Char → Bool) (l : List Char) :
    (∀ x ∈ l.dropWhile p, p x) ↔ (∀ x ∈ l, p x) := by
  constructor
  · intro h x hx
    have hsplit := List.takeWhile_append_dropWhile p l
    rw [← hsplit] at hx
    rcases List.mem_append.mp hx with hx | hx
    · exact List.mem_takeWhile_imp hx
    · exact h x hx
  · intro h x hx
    exact h x ((List.dropWhile_suffix p).subset hx)

theorem jsTrimList_eq_nil_iff (l : List Char) :
    jsTrimList l = [] ↔ ∀ c ∈ l, jsIsSpace c := by
  unfold jsTrimList
  rw [List.reverse_eq_nil_iff, List.dropWhile_eq_nil_iff]
  constructor
  · intro h c hc
    exact (forall_mem_dropWhile_iff jsIsSpace l).mp
      (fun x hx => h x (List.mem_reverse.mpr hx)) c hc
  · intro h c hc
    exact h c ((List.dropWhile_suffix jsIsSpace).subset (List.mem_reverse.mp hc))

/-- C6: the required-multilingual-field validator accepts a map exactly
when the default language's entry is present and contains at least one
non-whitespace character; a missing, empty, or all-whitespace
default-language entry is rejected (so the save fails validation), and a
present, non-empty (after trimming) entry passes. -/
theorem validateDefaultLanguage_eq (map : List (String × String)) (dl : String) :
    validateDefaultLanguage map dl =
      match mapGet map dl with
      | some v => decide (0 < (jsTrim v).length)
      | none => false := by
  unfold validateDefaultLanguage
  by_cases hmap : map.isEmpty
  · have hnone : mapGet map dl = none := by
      cases map with
      | nil => rfl
      | cons x xs => simp [List.isEmpty] at hmap
    rw [if_pos hmap, hnone]
  · rw [if_neg hmap]

theorem C6_validateDefaultLanguage_iff :
    ∀ (map : List (String × String)) (defaultLang : String),
      validateDefaultLanguage map defaultLang = true ↔
      ∃ v, mapGet map defaultLang = some v ∧
        v.data.any (fun c => !(jsIsSpace c)) = true := by
  intro map dl
  rw [validateDefaultLanguage_eq]
  cases h : mapGet map dl with
  | none => simp
  | some v =>
    simp only [Option.some.injEq, decide_eq_true_eq]
    constructor
    · intro hlen
      refine ⟨v, rfl, ?_⟩
      rw [List.any_eq_true]
      by_contra hall
      push_neg at hall
      have hsp : ∀ c ∈ v.data, jsIsSpace c := by
        intro c hc
        have := hall c hc
        simpa using this
      have hnil : jsTrimList v.data = [] := (jsTrimList_eq_nil_iff v.data).mpr hsp
      have hzero : (jsTrim v).length = 0 := by
        show (String.mk (jsTrimList v.data)).length = 0
        rw [hnil]
        rfl
      omega
    · rintro ⟨w, rfl, hany⟩
      rw [List.any_eq_true] at hany
      obtain ⟨c, hc, hcs⟩ := hany
      have hne : jsTrimList v.data ≠ [] := by
        intro hnil
        have := (jsTrimList_eq_nil_iff v.data).mp hnil c hc
        simp [this] at hcs
      have hpos : 0 < (jsTrimList v.data).length := List.length_pos.mpr hne
      exact hpos

/-- An error object as the global Express error middleware inspects it:
a name, an optional numeric status, an optional message, and the
per-field messages of a Mongoose validation error. -/
structure JsError where
  name : String
  status : Option Nat
  message : Option String
  errors : List String
deriving Repr, DecidableEq

/-- The JSON response the middleware sends: an HTTP status, the `error`
field of the body, and the optional `details` array. -/
structure ErrorResponse where
  status : Nat
  error : String
  details : Option (List String)
deriving Repr, DecidableEq

/-- JS `err.status || 500`: absent and `0` are falsy. -/
def jsOrNat (a : Option Nat) (b : Nat) : Nat :=
  match a with
  | some n => if n = 0 then b else n
  | none => b

/-- The global Express error-handling middleware (server entry file):
ValidationError → 400 with details, JsonWebTokenError / TokenExpiredError
→ 401, anything else → `err.status || 500` with body
`error: err.message || 'Internal server error'`. -/
def errorMiddleware (err : JsError) : ErrorResponse :=
  if err.name = "ValidationError" then
    ⟨400, "Validation Error", some err.errors⟩
  else if err.name = "JsonWebTokenError" then
    ⟨401, "Invalid token", none⟩
  else if err.name = "TokenExpiredError" then
    ⟨401, "Token expired", none⟩
  else
    ⟨jsOrNat err.status 500, jsOr err.message "Internal server error", none⟩

/-- C8: the middleware maps every error by name: ValidationError → HTTP
400 with a JSON error body, JsonWebTokenError / TokenExpiredError → HTTP
401, and any other error → the error's own status (500 when absent) with
body error = message (default message when absent). -/
theorem C8_errorMiddleware_mapping :
    ∀ err : JsError,
      (err.name = "ValidationError" →
        (errorMiddleware err).status = 400 ∧
        (errorMiddleware err).error = "Validation Error")
      ∧ ((err.name = "JsonWebTokenError" ∨ err.name = "TokenExpiredError") →
        (errorMiddleware err).status = 401)
      ∧ (err.name ≠ "ValidationError" → err.name ≠ "JsonWebTokenError" →
          err.name ≠ "TokenExpiredError" →
          (∀ s, err.status = some s → s ≠ 0 → (errorMiddleware err).status = s)
          ∧ (err.status = none → (errorMiddleware err).status = 500)
          ∧ (∀ m, err.message = some m → m ≠ "" → (errorMiddleware err).error = m)
          ∧ (err.message = none →
              (errorMiddleware err).error = "Internal server error")) := by
  intro err
  refine ⟨?_, ?_, ?_⟩
  · intro h
    unfold errorMiddleware
    rw [if_pos h]
    exact ⟨rfl, rfl⟩
  · intro h
    unfold errorMiddleware
    rcases h with h | h <;> rw [h] <;> simp
  · intro h1 h2 h3
    unfold errorMiddleware
    rw [if_neg h1, if_neg h2, if_neg h3]
    refine ⟨?_, ?_, ?_, ?_⟩
    · intro s hs hs0
      simp [jsOrNat, hs, hs0]
    · intro hs
      simp [jsOrNat, hs]
    · intro m hm hme
      simp [jsOr, hm, hme]
    · intro hm
      simp [jsOr, hm]

/-- Witness for C8: a CastError with status 404 and message passes through
with its own status and message. -/
theorem C8_witness :
    (errorMiddleware ⟨"CastError", some 404, some "Not found", []⟩).status = 404 ∧
    (errorMiddleware ⟨"CastError", some 404, some "Not found", []⟩).error = "Not found" := by
  have h := C8_errorMiddleware_mapping ⟨"CastError", some 404, some "Not found", []⟩
  have h3 := h.2.2 (by decide) (by decide) (by decide)
  exact ⟨h3.1 404 rfl (by decide), h3.2.2.1 "Not found" rfl (by decide)⟩

/-- The part of an Article document that the status-update route touches:
its workflow status and the optional publication timestamp (times are
epoch milliseconds). -/
structure ArticleDoc where
  status : String
  publishedAt : Option Nat
deriving Repr, DecidableEq

/-- The status allow-list of PUT /api/articles/:id/status. -/
def allowedStatuses : List String := ["draft", "pending", "published", "archived"]

/-- PUT /api/articles/:id/status handler (article.routes.js): validate the
status against the allow-list, then update through `findByIdAndUpdate`
(so no pre-save hook runs).  Mongoose strips the `undefined` given for
`publishedAt` on non-published statuses, leaving the field unchanged;
for the status 'published' it is set to `new Date()` unconditionally. -/
def updateStatusRoute (a : ArticleDoc) (status : String) (now : Nat) :
    Except (Nat × String) ArticleDoc :=
  if !(allowedStatuses.contains status) then
    .error (400, "Invalid status")
  else
    .ok { status := status,
          publishedAt := if status = "published" then some now else a.publishedAt }

/-- The Article pre-save hook "Set publishedAt when status changes to
published": only when the status was modified, is 'published', and
`publishedAt` is not already set.  It runs on `save()`, which the status
route does not use. -/
def publishedAtHook (a : ArticleDoc) (statusModified : Bool) (now : Nat) : ArticleDoc :=
  if statusModified && a.status == "published" && a.publishedAt == none then
    { a with publishedAt := some now }
  else a

/-- C2 (failing run): publishing, through the status route, an article
whose publishedAt is already set to 100 overwrites it with the current
time 200, while the model's own pre-save hook — bypassed by the route's
`findByIdAndUpdate` — keeps the original value on the same transition. -/
theorem C2_publishedAt_overwritten :
    updateStatusRoute ⟨"pending", some 100⟩ "published" 200 =
      .ok ⟨"published", some 200⟩
    ∧ publishedAtHook ⟨"published", some 100⟩ true 200 = ⟨"published", some 100⟩ := by
  exact ⟨rfl, rfl⟩

/-- A Language document: identity, ISO code and the default/active flags. -/
structure LanguageDoc where
  id : Nat
  code : String
  isDefault : Bool
  isActive : Bool
deriving Repr, DecidableEq

/-- The Language pre-save hook "Ensure only one default language": when the
document being saved is default and that flag was modified, run
`updateMany` clearing `isDefault` on every other language document. -/
def languagePreSave (docs : List LanguageDoc) (doc : LanguageDoc)
    (modifiedDefault : Bool) : List LanguageDoc :=
  if doc.isDefault && modifiedDefault then
    docs.map (fun d =>
      if d.id != doc.id && d.isDefault then { d with isDefault := false } else d)
  else docs

/-- Persisting the saved document after its hooks ran: replace the stored
document with the same id, or insert the document when new. -/
def upsertLanguage (docs : List LanguageDoc) (doc : LanguageDoc) : List LanguageDoc :=
  if docs.any (fun d => d.id == doc.id) then
    docs.map (fun d => if d.id == doc.id then doc else d)
  else docs ++ [doc]

/-- `language.save()`: the pre-save hook followed by the write of the
document itself. -/
def saveLanguage (docs : List LanguageDoc) (doc : LanguageDoc)
    (modifiedDefault : Bool) : List LanguageDoc :=
  upsertLanguage (languagePreSave docs doc modifiedDefault) doc

/-- C5: saving a language whose isDefault flag was set to true leaves the
saved language as the only default: every stored document that is still
default is the saved one, so at most one document is default and a
previous default (a different id) no longer has isDefault = true. -/
theorem C5_single_default_language (docs : List LanguageDoc) (doc : LanguageDoc)
    (hd : doc.isDefault = true) :
    (∀ d ∈ saveLanguage docs doc true, d.isDefault = true → d.id = doc.id)
    ∧ (∀ d1 ∈ saveLanguage docs doc true, ∀ d2 ∈ saveLanguage docs doc true,
        d1.isDefault = true → d2.isDefault = true → d1.id = d2.id) := by
  have hpre : ∀ d ∈ languagePreSave docs doc true, d.isDefault = true → d.id = doc.id := by
    intro d hm hdef
    unfold languagePreSave at hm
    rw [hd] at hm
    simp only [Bool.true_and, if_true] at hm
    rw [List.mem_map] at hm
    obtain ⟨d0, _, hd0⟩ := hm
    by_cases hc : (d0.id != doc.id && d0.isDefault) = true
    · rw [if_pos hc] at hd0
      rw [← hd0] at hdef
      simp at hdef
    · rw [if_neg hc] at hd0
      subst hd0
      simp only [Bool.and_eq_true, bne_iff_ne, ne_eq, not_and] at hc
      by_contra hne
      exact absurd hdef (by simpa using hc hne)
  have hmain : ∀ d ∈ saveLanguage docs doc true, d.isDefault = true → d.id = doc.id := by
    intro d hm hdef
    unfold saveLanguage upsertLanguage at hm
    set pre := languagePreSave docs doc true with hpredef
    by_cases hany : (pre.any (fun d => d.id == doc.id)) = true
    · rw [if_pos hany] at hm
      rw [List.mem_map] at hm
      obtain ⟨d0, hd0m, hd0⟩ := hm
      by_cases hc : (d0.id == doc.id) = true
      · rw [if_pos hc] at hd0
        subst hd0
        rfl
      · rw [if_neg hc] at hd0
        subst hd0
        exact hpre d0 hd0m hdef
    · rw [if_neg hany] at hm
      rcases List.mem_append.mp hm with hm | hm
      · exact hpre d hm hdef
      · rw [List.mem_singleton] at hm
        subst hm
        rfl
  refine ⟨hmain, ?_⟩
  intro d1 h1 d2 h2 hd1 hd2
  rw [hmain d1 h1 hd1, hmain d2 h2 hd2]

/-- Witness for C5: making te the default in a store where en was the
default; the theorem applies to the saved document itself. -/
theorem C5_witness :
    (⟨2, "te", true, true⟩ : LanguageDoc).id = 2 := by
  have h := (C5_single_default_language
    [⟨1, "en", true, true⟩, ⟨2, "te", false, true⟩] ⟨2, "te", true, true⟩ rfl).1
  exact h ⟨2, "te", true, true⟩ (by decide) rfl

/-- The engagement record types of the Engagement schema. -/
inductive EngType
  | view
  | like
  | dislike
  | share
  | bookmark
deriving Repr, DecidableEq

/-- An Engagement document: optional user (null for anonymous actors),
article, type, optional session id / ip / user agent, and the creation
timestamp added by Mongoose. -/
structure EngRec where
  user : Option Nat
  article : Nat
  type : EngType
  sessionId : Option String
  ip : Option String
  userAgent : Option String
  createdAt : Nat
deriving Repr, DecidableEq

/-- `document.deleteOne()` on the first document `findOne` returned:
remove the first list entry satisfying the predicate. -/
def removeFirst {α : Type} (p : α → Bool) : List α → List α
  | [] => []
  | x :: xs => if p x then xs else x :: removeFirst p xs

theorem removeFirst_sublist {α : Type} (p : α → Bool) :
    ∀ l : List α, List.Sublist (removeFirst p l) l := by
  intro l
  induction l with
  | nil => exact List.Sublist.refl []
  | cons x xs ih =>
    unfold removeFirst
    by_cases h : p x = true
    · rw [if_pos h]
      exact List.sublist_cons_self x xs
    · rw [if_neg h]
      exact ih.cons₂ x

theorem countP_removeFirst_self {α : Type} (p : α → Bool) :
    ∀ l : List α, 0 < l.countP p →
      (removeFirst p l).countP p = l.countP p - 1 := by
  intro l
  induction l with
  | nil => intro h; simp at h
  | cons x xs ih =>
    intro hpos
    unfold removeFirst
    by_cases h : p x = true
    · rw [if_pos h, List.countP_cons_of_pos _ _ h]
      omega
    · rw [if_neg h, List.countP_cons_of_neg _ _ h, List.countP_cons_of_neg _ _ h]
      rw [List.countP_cons_of_neg _ _ h] at hpos
      exact ih hpos

/-- The `findOne` filter for the current user's like on an article. -/
def likeMatch (uid art : Nat) (r : EngRec) : Bool :=
  r.user == some uid && r.article == art && r.type == EngType.like

/-- The `findOne` filter for the current user's dislike on an article. -/
def dislikeMatch (uid art : Nat) (r : EngRec) : Bool :=
  r.user == some uid && r.article == art && r.type == EngType.dislike

/-- The state the like route touches: the Engagement collection and the
article's denormalized likes/dislikes counters (mutated via `$inc`, so
they can in principle go negative — they are integers). -/
structure EngState where
  recs : List EngRec
  likes : Int
  dislikes : Int
deriving Repr, DecidableEq

/-- POST /api/engagement/like/:articleId handler (engagement routes): if a
like exists, delete it and decrement likes; otherwise delete any existing
dislike (decrementing dislikes), then create the like and increment
likes. -/
def likeRoute (s : EngState) (uid art now : Nat) : String × EngState :=
  match s.recs.find? (likeMatch uid art) with
  | some _ =>
    ("unliked", ⟨removeFirst (likeMatch uid art) s.recs, s.likes - 1, s.dislikes⟩)
  | none =>
    let afterDislike : EngState :=
      match s.recs.find? (dislikeMatch uid art) with
      | some _ => ⟨removeFirst (dislikeMatch uid art) s.recs, s.likes, s.dislikes - 1⟩
      | none => s
    ("liked",
      ⟨⟨some uid, art, EngType.like, none, none, none, now⟩ :: afterDislike.recs,
        afterDislike.likes + 1, afterDislike.dislikes⟩)

/-- C3: liking an article the user currently dislikes (exactly one dislike
record — the partial unique index guarantees at most one — and no like
record) removes the dislike, creates the like, increments likes by one
and decrements dislikes by one, leaving exactly one reaction: a like. -/
theorem C3_like_clears_dislike (s : EngState) (uid art now : Nat)
    (hNoLike : s.recs.countP (likeMatch uid art) = 0)
    (hOneDislike : s.recs.countP (dislikeMatch uid art) = 1) :
    (likeRoute s uid art now).1 = "liked"
    ∧ ((likeRoute s uid art now).2).recs.countP (likeMatch uid art) = 1
    ∧ ((likeRoute s uid art now).2).recs.countP (dislikeMatch uid art) = 0
    ∧ ((likeRoute s uid art now).2).likes = s.likes + 1
    ∧ ((likeRoute s uid art now).2).dislikes = s.dislikes - 1 := by
  have hfindLike : s.recs.find? (likeMatch uid art) = none := by
    rw [List.find?_eq_none]
    intro x hx
    have := List.countP_eq_zero.mp hNoLike x hx
    simpa using this
  have hdpos : 0 < s.recs.countP (dislikeMatch uid art) := by omega
  have hfindDis : (s.recs.find? (dislikeMatch uid art)).isSome := by
    rw [List.find?_isSome]
    exact List.countP_pos_iff.mp hdpos
  obtain ⟨d, hd⟩ := Option.isSome_iff_exists.mp hfindDis
  have hnew : likeMatch uid art ⟨some uid, art, EngType.like, none, none, none, now⟩ = true := by
    simp [likeMatch]
  have hnewDis :
      dislikeMatch uid art ⟨some uid, art, EngType.like, none, none, none, now⟩ = false := by
    simp [dislikeMatch]
  have hremLike :
      (removeFirst (dislikeMatch uid art) s.recs).countP (likeMatch uid art) = 0 := by
    have hle := (removeFirst_sublist (dislikeMatch uid art) s.recs).countP_le (likeMatch uid art)
    omega
  have hremDis :
      (removeFirst (dislikeMatch uid art) s.recs).countP (dislikeMatch uid art) = 0 := by
    rw [countP_removeFirst_self _ _ hdpos, hOneDislike]
  unfold likeRoute
  rw [hfindLike, hd]
  refine ⟨rfl, ?_, ?_, rfl, rfl⟩
  · simp [List.countP_cons, hnew, hremLike]
  · simp [List.countP_cons, hnewDis, hremDis]

/-- Witness for C3: a store with the single dislike record of user 1 on
article 5 and counters (0 likes, 1 dislike). -/
theorem C3_witness :
    (likeRoute ⟨[⟨some 1, 5, EngType.dislike, none, none, none, 0⟩], 0, 1⟩ 1 5 10).1 = "liked"
    ∧ ((likeRoute ⟨[⟨some 1, 5, EngType.dislike, none, none, none, 0⟩], 0, 1⟩ 1 5 10).2).likes = 1
    ∧ ((likeRoute ⟨[⟨some 1, 5, EngType.dislike, none, none, none, 0⟩], 0, 1⟩ 1 5 10).2).dislikes = 0 := by
  have h := C3_like_clears_dislike
    ⟨[⟨some 1, 5, EngType.dislike, none, none, none, 0⟩], 0, 1⟩ 1 5 10 (by decide) (by decide)
  refine ⟨h.1, ?_, ?_⟩
  · rw [h.2.2.2.1]
    decide
  · rw [h.2.2.2.2]
    decide

/-- The 24-hour deduplication window of `trackView`, in milliseconds. -/
def oneDayMs : Nat := 24 * 60 * 60 * 1000

/-- JS truthiness of an optional string (absent and empty are falsy). -/
def jsTruthy (o : Option String) : Bool :=
  match o with
  | some s => s != ""
  | none => false

/-- The part of the `trackView` query shared by every identity: same
article, type 'view', created within the last 24 hours
(`createdAt ≥ now − oneDay`). -/
def viewWindowQuery (art now : Nat) (r : EngRec) : Bool :=
  r.article == art && r.type == EngType.view && decide (now - oneDayMs ≤ r.createdAt)

/-- The deduplication query `Engagement.trackView` builds, prioritizing
userId over sessionId over IP; `none` when no identifier is available. -/
def dedupQuery (art : Nat) (userId : Option Nat) (sessionId ip : Option String)
    (now : Nat) : Option (EngRec → Bool) :=
  match userId with
  | some uid => some (fun r => viewWindowQuery art now r && r.user == some uid)
  | none =>
    if jsTruthy sessionId then
      some (fun r => viewWindowQuery art now r && r.sessionId == sessionId && r.user == none)
    else if jsTruthy ip then
      some (fun r => viewWindowQuery art now r && r.ip == ip && r.user == none)
    else none

/-- Whether a stored record matches the identity's deduplication query
(false when there is no identifier, hence no query). -/
def dedupMatch (art : Nat) (userId : Option Nat) (sessionId ip : Option String)
    (now : Nat) (r : EngRec) : Bool :=
  match dedupQuery art userId sessionId ip now with
  | some q => q r
  | none => false

/-- `Engagement.trackView` (Engagement.js): build the identity-prioritized
query; with no identifier, always create a view record and return true;
otherwise return false when a matching record exists, else create the
record (`user: userId || null`, `sessionId: sessionId || null`) and
return true. -/
def trackView (recs : List EngRec) (art : Nat) (userId : Option Nat)
    (sessionId ip userAgent : Option String) (now : Nat) : Bool × List EngRec :=
  match dedupQuery art userId sessionId ip now with
  | some q =>
    if (recs.find? q).isSome then (false, recs)
    else
      (true, ⟨userId, art, EngType.view,
        if jsTruthy sessionId then sessionId else none, ip, userAgent, now⟩ :: recs)
  | none =>
    (true, ⟨none, art, EngType.view, none, ip, userAgent, now⟩ :: recs)

/-- POST /api/engagement/view/:articleId handler: track the view and
increment the article's view counter (atomic `$inc`) only when a new view
was recorded; returns (recorded, records, views). -/
def viewRoute (recs : List EngRec) (views : Nat) (art : Nat) (userId : Option Nat)
    (sessionId ip userAgent : Option String) (now : Nat) :
    Bool × List EngRec × Nat :=
  let r := trackView recs art userId sessionId ip userAgent now
  (r.1, r.2, if r.1 then views + 1 else views)

theorem dedupQuery_isSome (art : Nat) (userId : Option Nat)
    (sessionId ip : Option String) (now : Nat)
    (hid : (userId.isSome || jsTruthy sessionId || jsTruthy ip) = true) :
    (dedupQuery art userId sessionId ip now).isSome = true := by
  unfold dedupQuery
  cases userId with
  | some uid => rfl
  | none =>
    simp only [Option.isSome_none, Bool.false_or, Bool.or_eq_true] at hid
    by_cases hsid : jsTruthy sessionId = true
    · rw [if_pos hsid]
      rfl
    · rw [if_neg hsid]
      have hip : jsTruthy ip = true := by
        rcases hid with h | h
        · exact absurd h hsid
        · exact h
      rw [if_pos hip]
      rfl

/-- C4: with any identifier available (user id, else session id, else IP),
a view-record call finding a view already recorded for that identity and
article within the last 24 hours creates no record and leaves the counter
unchanged, returning recorded = false; consequently a successful call
followed by a second call within 24 hours increments the counter exactly
once. -/
theorem C4_view_dedup_24h :
    (∀ (recs : List EngRec) (views art : Nat) (userId : Option Nat)
        (sessionId ip userAgent : Option String) (now : Nat),
      (userId.isSome || jsTruthy sessionId || jsTruthy ip) = true →
      recs.any (dedupMatch art userId sessionId ip now) = true →
      viewRoute recs views art userId sessionId ip userAgent now = (false, recs, views))
    ∧ (∀ (recs : List EngRec) (views art : Nat) (userId : Option Nat)
        (sessionId ip userAgent : Option String) (now1 now2 : Nat),
      (userId.isSome || jsTruthy sessionId || jsTruthy ip) = true →
      now1 ≤ now2 → now2 ≤ now1 + oneDayMs →
      (viewRoute recs views art userId sessionId ip userAgent now1).1 = true →
      viewRoute (viewRoute recs views art userId sessionId ip userAgent now1).2.1
          (viewRoute recs views art userId sessionId ip userAgent now1).2.2
          art userId sessionId ip userAgent now2
        = (false, (viewRoute recs views art userId sessionId ip userAgent now1).2.1,
            views + 1)) := by
  constructor
  · intro recs views art userId sessionId ip userAgent now hid hany
    obtain ⟨q, hq⟩ := Option.isSome_iff_exists.mp
      (dedupQuery_isSome art userId sessionId ip now hid)
    have hfind : (recs.find? q).isSome = true := by
      rw [List.find?_isSome]
      rw [List.any_eq_true] at hany
      obtain ⟨r, hr, hmr⟩ := hany
      refine ⟨r, hr, ?_⟩
      unfold dedupMatch at hmr
      rw [hq] at hmr
      exact hmr
    unfold viewRoute trackView
    rw [hq]
    simp [hfind]
  · intro recs views art userId sessionId ip userAgent now1 now2 hid h12 h2w hb1
    have hwin : now2 - oneDayMs ≤ now1 := by omega
    rcases userId with _ | u
    · by_cases hsid : jsTruthy sessionId = true
      · obtain ⟨s, hs⟩ : ∃ s, sessionId = some s := by
          cases sessionId with
          | none => simp [jsTruthy] at hsid
          | some s => exact ⟨s, rfl⟩
        subst hs
        revert hb1
        unfold viewRoute trackView dedupQuery
        rw [if_pos hsid]
        cases hf : (recs.find? (fun r =>
            viewWindowQuery art now1 r && r.sessionId == some s && r.user == none)).isSome with
        | true => simp [hf]
        | false =>
          simp only [hf, Bool.false_eq_true, if_false, if_pos hsid]
          intro _
          simp [hsid, viewWindowQuery, hwin, h2w]
      · by_cases hip : jsTruthy ip = true
        · obtain ⟨i, hi⟩ : ∃ i, ip = some i := by
            cases ip with
            | none => simp [jsTruthy] at hip
            | some i => exact ⟨i, rfl⟩
          subst hi
          revert hb1
          unfold viewRoute trackView dedupQuery
          rw [if_neg hsid, if_pos hip]
          cases hf : (recs.find? (fun r =>
              viewWindowQuery art now1 r && r.ip == some i && r.user == none)).isSome with
          | true => simp [hf]
          | false =>
            simp only [hf, Bool.false_eq_true, if_false, if_neg hsid]
            intro _
            simp [hsid, hip, viewWindowQuery, hwin, h2w]
        · simp [hsid, hip] at hid
    · revert hb1
      unfold viewRoute trackView dedupQuery
      cases hf : (recs.find? (fun r =>
          viewWindowQuery art now1 r && r.user == some u)).isSome with
      | true => simp [hf]
      | false =>
        simp only [hf, Bool.false_eq_true, if_false]
        intro _
        simp [viewWindowQuery, hwin, h2w]

/-- Witness for C4: user 3 already has a view on article 7 recorded at
time 5000; a call at time 6000 records nothing and keeps the counter. -/
theorem C4_witness :
    viewRoute [⟨some 3, 7, EngType.view, none, none, none, 5000⟩] 12 7 (some 3)
        none none none 6000
      = (false, [⟨some 3, 7, EngType.view, none, none, none, 5000⟩], 12) :=
  C4_view_dedup_24h.1 [⟨some 3, 7, EngType.view, none, none, none, 5000⟩] 12 7 (some 3)
    none none none 6000 (by decide) (by decide)

/-- C9: with no identifier at all (no user, no session id, no IP) a
view-record call always creates a fresh anonymous view record and reports
recorded = true, so every such call increments the article's view
counter — deduplication is bypassed entirely. -/
theorem C9_view_without_identifier :
    ∀ (recs : List EngRec) (views art : Nat) (userAgent : Option String) (now : Nat),
      viewRoute recs views art none none none userAgent now
        = (true, ⟨none, art, EngType.view, none, none, userAgent, now⟩ :: recs, views + 1) := by
  intro recs views art userAgent now
  rfl

/-- JS `toLowerCase` restricted to its effect on ASCII: uppercase ASCII
letters map to the corresponding lowercase letters, every other character
is left unchanged. -/
def jsToLower (c : Char) : Char :=
  if 65 ≤ c.toNat ∧ c.toNat ≤ 90 then Char.ofNat (c.toNat + 32) else c

/-- The regex `\w` class: ASCII letters, digits and underscore. -/
def isWordChar (c : Char) : Bool :=
  (97 ≤ c.toNat && c.toNat ≤ 122) || (65 ≤ c.toNat && c.toNat ≤ 90) ||
  (48 ≤ c.toNat && c.toNat ≤ 57) || c.toNat == 95

/-- A character allowed in a finished slug: lowercase ASCII letter, digit,
underscore or hyphen. -/
def isSlugChar (c : Char) : Bool :=
  (97 ≤ c.toNat && c.toNat ≤ 122) || (48 ≤ c.toNat && c.toNat ≤ 57) ||
  c.toNat == 95 || c.toNat == 45

/-- `replace(/\s+/g, '-')`: each maximal whitespace run becomes one
hyphen; the flag records whether the previous character was whitespace. -/
def replaceSpaceRuns : Bool → List Char → List Char
  | _, [] => []
  | prevSpace, c :: rest =>
    if jsIsSpace c then
      if prevSpace then replaceSpaceRuns true rest
      else '-' :: replaceSpaceRuns true rest
    else c :: replaceSpaceRuns false rest

/-- `replace(/\-\-+/g, '-')`: since single hyphens are left alone and
longer runs become one hyphen, every maximal hyphen run collapses to a
single hyphen; the flag records whether the previous character was a
hyphen. -/
def collapseHyphenRuns : Bool → List Char → List Char
  | _, [] => []
  | prevHyphen, c :: rest =>
    if c = '-' then
      if prevHyphen then collapseHyphenRuns true rest
      else '-' :: collapseHyphenRuns true rest
    else c :: collapseHyphenRuns false rest

/-- `slugify` (utils/slugify.js) on a list of characters: lowercase, trim,
turn whitespace runs into hyphens, strip characters outside `\w` and
hyphen, collapse hyphen runs, and strip leading and trailing hyphens. -/
def slugifyChars (l : List Char) : List Char :=
  let kept := (replaceSpaceRuns false (jsTrimList (l.map jsToLower))).filter
    (fun c => isWordChar c || c == '-')
  let collapsed := collapseHyphenRuns false kept
  ((collapsed.dropWhile (fun c => c == '-')).reverse.dropWhile (fun c => c == '-')).reverse

/-- `slugify`: falsy input (for a string argument: the empty string) maps
to the empty string; otherwise the character pipeline above. -/
def slugify (s : String) : String :=
  if s = "" then "" else String.mk (slugifyChars s.data)

theorem jsToLower_not_upper (c : Char) :
    ¬(65 ≤ (jsToLower c).toNat ∧ (jsToLower c).toNat ≤ 90) := by
  unfold jsToLower
  split
  · rename_i h
    have hv : (c.toNat + 32).isValidChar := by
      unfold Nat.isValidChar
      left
      omega
    have heq : (Char.ofNat (c.toNat + 32)).toNat = c.toNat + 32 := by
      simp [Char.ofNat, hv]
      rfl
    rw [heq]
    omega
  · rename_i h
    exact h

theorem mem_jsTrimList (l : List Char) (c : Char) (h : c ∈ jsTrimList l) : c ∈ l := by
  unfold jsTrimList at h
  rw [List.mem_reverse] at h
  have h1 := (List.dropWhile_suffix jsIsSpace).subset h
  rw [List.mem_reverse] at h1
  exact (List.dropWhile_suffix jsIsSpace).subset h1

theorem mem_replaceSpaceRuns :
    ∀ (l : List Char) (b : Bool) (c : Char), c ∈ replaceSpaceRuns b l → c ∈ l ∨ c = '-' := by
  intro l
  induction l with
  | nil => intro b c h; simp [replaceSpaceRuns] at h
  | cons x xs ih =>
    intro b c h
    unfold replaceSpaceRuns at h
    by_cases hx : jsIsSpace x = true
    · rw [if_pos hx] at h
      cases b with
      | true =>
        rcases ih true c h with h | h
        · exact Or.inl (List.mem_cons_of_mem x h)
        · exact Or.inr h
      | false =>
        rcases List.mem_cons.mp h with h | h
        · exact Or.inr h
        · rcases ih true c h with h | h
          · exact Or.inl (List.mem_cons_of_mem x h)
          · exact Or.inr h
    · rw [if_neg hx] at h
      rcases List.mem_cons.mp h with h | h
      · exact Or.inl (h ▸ List.mem_cons_self x xs)
      · rcases ih false c h with h | h
        · exact Or.inl (List.mem_cons_of_mem x h)
        · exact Or.inr h

theorem mem_collapseHyphenRuns :
    ∀ (l : List Char) (b : Bool) (c : Char), c ∈ collapseHyphenRuns b l → c ∈ l := by
  intro l
  induction l with
  | nil => intro b c h; simp [collapseHyphenRuns] at h
  | cons x xs ih =>
    intro b c h
    unfold collapseHyphenRuns at h
    by_cases hx : x = '-'
    · rw [if_pos hx] at h
      cases b with
      | true => exact List.mem_cons_of_mem x (ih true c h)
      | false =>
        rcases List.mem_cons.mp h with h | h
        · exact h ▸ hx ▸ List.mem_cons_self x xs
        · exact List.mem_cons_of_mem x (ih true c h)
    · rw [if_neg hx] at h
      rcases List.mem_cons.mp h with h | h
      · exact h ▸ List.mem_cons_self x xs
      · exact List.mem_cons_of_mem x (ih false c h)

theorem head?_collapseHyphenRuns_true :
    ∀ l : List Char, (collapseHyphenRuns true l).head? ≠ some '-' := by
  intro l
  induction l with
  | nil => simp [collapseHyphenRuns]
  | cons x xs ih =>
    unfold collapseHyphenRuns
    by_cases hx : x = '-'
    · rw [if_pos hx]
      exact ih
    · rw [if_neg hx]
      simp [hx]

theorem chain'_collapseHyphenRuns :
    ∀ (l : List Char) (b : Bool),
      List.Chain' (fun a c => ¬(a = '-' ∧ c = '-')) (collapseHyphenRuns b l) := by
  intro l
  induction l with
  | nil => intro b; simp [collapseHyphenRuns]
  | cons x xs ih =>
    intro b
    unfold collapseHyphenRuns
    by_cases hx : x = '-'
    · rw [if_pos hx]
      cases b with
      | true => exact ih true
      | false =>
        rw [if_neg Bool.false_ne_true, List.chain'_cons']
        refine ⟨?_, ih true⟩
        intro y hy
        intro hcon
        have hh : (collapseHyphenRuns true xs).head? = some y := hy
        rw [hcon.2] at hh
        exact head?_collapseHyphenRuns_true xs hh
    · rw [if_neg hx]
      rw [List.chain'_cons']
      refine ⟨?_, ih false⟩
      intro y hy hcon
      exact hx hcon.1

theorem head?_dropWhile_not (p : Char → Bool) :
    ∀ (l : List Char) (a : Char), (l.dropWhile p).head? = some a → p a = false := by
  intro l
  induction l with
  | nil => intro a h; simp at h
  | cons x xs ih =>
    intro a h
    rw [List.dropWhile_cons] at h
    by_cases hx : p x = true
    · rw [if_pos hx] at h
      exact ih a h
    · rw [if_neg hx] at h
      simp at h
      rw [← h]
      exact Bool.not_eq_true _ ▸ (by simpa using hx)

theorem chain'_hyphen_reverse (l : List Char)
    (h : List.Chain' (fun a c => ¬(a = '-' ∧ c = '-')) l) :
    List.Chain' (fun a c => ¬(a = '-' ∧ c = '-')) l.reverse := by
  rw [List.chain'_reverse]
  exact h.imp (fun a c hac hcon => hac ⟨hcon.2, hcon.1⟩)

theorem slugifyChars_all (l : List Char) :
    ∀ c ∈ slugifyChars l, isSlugChar c = true := by
  intro c hc
  unfold slugifyChars at hc
  rw [List.mem_reverse] at hc
  have hc1 := (List.dropWhile_suffix (fun c => c == '-')).subset hc
  rw [List.mem_reverse] at hc1
  have hc2 := (List.dropWhile_suffix (fun c => c == '-')).subset hc1
  have hc3 := mem_collapseHyphenRuns _ false c hc2
  rw [List.mem_filter] at hc3
  obtain ⟨hc4, hkeep⟩ := hc3
  rcases mem_replaceSpaceRuns _ false c hc4 with hc5 | hc5
  · have hc6 := mem_jsTrimList _ c hc5
    rw [List.mem_map] at hc6
    obtain ⟨c0, _, hc0⟩ := hc6
    have hnu := jsToLower_not_upper c0
    rw [hc0] at hnu
    rw [Bool.or_eq_true] at hkeep
    rcases hkeep with hw | hh
    · unfold isWordChar at hw
      unfold isSlugChar
      simp only [Bool.or_eq_true, Bool.and_eq_true, decide_eq_true_eq,
        Nat.beq_eq_true_eq] at hw ⊢
      omega
    · rw [beq_iff_eq] at hh
      subst hh
      decide
  · subst hc5
    decide

theorem slugifyChars_chain (l : List Char) :
    List.Chain' (fun a c => ¬(a = '-' ∧ c = '-')) (slugifyChars l) := by
  unfold slugifyChars
  have h1 := chain'_collapseHyphenRuns
    ((replaceSpaceRuns false (jsTrimList (l.map jsToLower))).filter
      (fun c => isWordChar c || c == '-')) false
  have h2 := h1.suffix (List.dropWhile_suffix (fun c => c == '-'))
  have h3 := chain'_hyphen_reverse _ h2
  have h4 := h3.suffix (List.dropWhile_suffix (fun c => c == '-'))
  exact chain'_hyphen_reverse _ h4

theorem slugifyChars_head (l : List Char) :
    (slugifyChars l).head? ≠ some '-' := by
  intro hsome
  unfold slugifyChars at hsome
  set A := (collapseHyphenRuns false
    ((replaceSpaceRuns false (jsTrimList (l.map jsToLower))).filter
      (fun c => isWordChar c || c == '-'))).dropWhile (fun c => c == '-') with hAdef
  have hdecomp : A = (A.reverse.dropWhile (fun c => c == '-')).reverse
      ++ (A.reverse.takeWhile (fun c => c == '-')).reverse := by
    conv_lhs => rw [← List.reverse_reverse A]
    rw [← List.takeWhile_append_dropWhile (fun c => c == '-') A.reverse
      , List.reverse_append
      , List.takeWhile_append_dropWhile]
  have hheadA : A.head? = some '-' := by
    rw [hdecomp]
    cases hfin : (A.reverse.dropWhile (fun c => c == '-')).reverse with
    | nil => rw [hfin] at hsome; simp at hsome
    | cons x t =>
      rw [hfin] at hsome
      simp only [List.head?_cons, Option.some.injEq] at hsome
      rw [List.cons_append, List.head?_cons, hsome]
  have := head?_dropWhile_not (fun c => c == '-') _ '-' hheadA
  simp at this

theorem slugifyChars_last (l : List Char) :
    (slugifyChars l).getLast? ≠ some '-' := by
  intro hsome
  unfold slugifyChars at hsome
  rw [List.getLast?_reverse] at hsome
  have := head?_dropWhile_not (fun c => c == '-') _ '-' hsome
  simp at this

/-- C10: every slug consists only of lowercase ASCII letters, digits,
underscores and hyphens, has no two consecutive hyphens, and neither
starts nor ends with a hyphen; empty (falsy) input yields the empty
string. -/
theorem C10_slugify_shape :
    ∀ s : String,
      (slugify s).data.all isSlugChar = true
      ∧ List.Chain' (fun a c => ¬(a = '-' ∧ c = '-')) (slugify s).data
      ∧ (slugify s).data.head? ≠ some '-'
      ∧ (slugify s).data.getLast? ≠ some '-'
      ∧ slugify "" = "" := by
  intro s
  by_cases hs : s = ""
  · subst hs
    refine ⟨rfl, ?_, ?_, ?_, rfl⟩ <;> simp [slugify]
  · have hdata : (slugify s).data = slugifyChars s.data := by
      unfold slugify
      rw [if_neg hs]
    refine ⟨?_, ?_, ?_, ?_, rfl⟩
    · rw [hdata, List.all_eq_true]
      exact slugifyChars_all s.data
    · rw [hdata]
      exact slugifyChars_chain s.data
    · rw [hdata]
      exact slugifyChars_head s.data
    · rw [hdata]
      exact slugifyChars_last s.data

/-- True when a stored document other than the one being saved already
uses the slug (`findOne slug, _id ≠ this._id` returning a document);
documents are (id, slug) pairs. -/
def existsOtherWithSlug (docs : List (Nat × String)) (selfId : Nat) (slug : String) : Bool :=
  docs.any (fun p => p.2 == slug && p.1 != selfId)

/-- The Article pre-save slug hook (for a new document): slug from the
English title when truthy; otherwise from the default-language title (or
the first title value) suffixed with the timestamp, with 'article' as the
base when its slug is empty, falling back to article-timestamp; finally,
when another document already holds the slug, append the timestamp. -/
def articleSlugHook (docs : List (Nat × String)) (selfId : Nat)
    (title : List (String × String)) (defaultLang : String) (now : Nat) : String :=
  let base :=
    match jsTruthyOpt (mapGet title "en") with
    | some t => slugify t
    | none =>
      match jsTruthyOpt (jsOrOpt (mapGet title defaultLang)
          (title.head?.map (fun p => p.2))) with
      | some t => (if slugify t = "" then "article" else slugify t) ++ "-" ++ toString now
      | none => "article-" ++ toString now
  if existsOtherWithSlug docs selfId base then base ++ "-" ++ toString now else base

/-- The Category pre-save slug hook: only acts when the English name is
truthy (`none` = slug left unchanged); appends the timestamp when the
slug is already taken by another document. -/
def categorySlugHook (docs : List (Nat × String)) (selfId : Nat)
    (name : List (String × String)) (now : Nat) : Option String :=
  match jsTruthyOpt (mapGet name "en") with
  | none => none
  | some n =>
    let base := slugify n
    some (if existsOtherWithSlug docs selfId base then base ++ "-" ++ toString now else base)

/-- The City pre-save slug hook: only acts when the English name is truthy;
on a collision it appends the slug of the English state name — and only
when that state name is truthy, otherwise the colliding slug is kept. -/
def citySlugHook (docs : List (Nat × String)) (selfId : Nat)
    (name state : List (String × String)) : Option String :=
  match jsTruthyOpt (mapGet name "en") with
  | none => none
  | some n =>
    let base := slugify n
    match existsOtherWithSlug docs selfId base, jsTruthyOpt (mapGet state "en") with
    | true, some st => some (base ++ "-" ++ slugify st)
    | _, _ => some base

/-- C7 (counterexample): two cities both named Hyderabad in English and
without a state name, saved one after the other, both receive the very
same slug hyderabad — the collision is not resolved. -/
theorem C7_city_slug_collision :
    citySlugHook [] 1 [("en", "Hyderabad")] [] = some "hyderabad"
    ∧ citySlugHook [(1, "hyderabad")] 2 [("en", "Hyderabad")] [] = some "hyderabad" := by
  constructor <;> rfl

theorem existsOtherWithSlug_false (docs : List (Nat × String)) (selfId : Nat) (slug : String)
    (hfresh : ∀ p ∈ docs, p.2 ≠ slug) :
    existsOtherWithSlug docs selfId slug = false := by
  unfold existsOtherWithSlug
  cases hany : docs.any (fun p => p.2 == slug && p.1 != selfId) with
  | false => rfl
  | true =>
    rw [List.any_eq_true] at hany
    obtain ⟨p, hp, hcond⟩ := hany
    rw [Bool.and_eq_true, beq_iff_eq] at hcond
    exact absurd hcond.1 (hfresh p hp)

/-- C7 (amended): for Articles and for Categories a colliding English
title/name is resolved by a timestamp suffix, so the second document's
slug differs from the first's; for Cities the collision is resolved by
appending the English state name's slug, and only when the second city
has a truthy English state name — without one the colliding slug is kept
unchanged. -/
theorem C7_slug_collision_amended :
    (∀ (docs : List (Nat × String)) (id1 id2 : Nat)
        (t1 t2 : List (String × String)) (dl1 dl2 : String) (n1 n2 : Nat) (e1 e2 : String),
      jsTruthyOpt (mapGet t1 "en") = some e1 →
      jsTruthyOpt (mapGet t2 "en") = some e2 →
      slugify e1 = slugify e2 →
      id1 ≠ id2 →
      (∀ p ∈ docs, p.2 ≠ slugify e1) →
      articleSlugHook docs id1 t1 dl1 n1 ≠
        articleSlugHook ((id1, articleSlugHook docs id1 t1 dl1 n1) :: docs) id2 t2 dl2 n2)
    ∧ (∀ (docs : List (Nat × String)) (id1 id2 : Nat)
        (name1 name2 : List (String × String)) (n1 n2 : Nat) (e1 e2 s1 s2 : String),
      jsTruthyOpt (mapGet name1 "en") = some e1 →
      jsTruthyOpt (mapGet name2 "en") = some e2 →
      slugify e1 = slugify e2 →
      id1 ≠ id2 →
      (∀ p ∈ docs, p.2 ≠ slugify e1) →
      categorySlugHook docs id1 name1 n1 = some s1 →
      categorySlugHook ((id1, s1) :: docs) id2 name2 n2 = some s2 →
      s1 ≠ s2)
    ∧ (∀ (docs : List (Nat × String)) (id1 id2 : Nat)
        (name1 name2 state1 state2 : List (String × String)) (e1 e2 st s1 s2 : String),
      jsTruthyOpt (mapGet name1 "en") = some e1 →
      jsTruthyOpt (mapGet name2 "en") = some e2 →
      slugify e1 = slugify e2 →
      id1 ≠ id2 →
      (∀ p ∈ docs, p.2 ≠ slugify e1) →
      jsTruthyOpt (mapGet state2 "en") = some st →
      citySlugHook docs id1 name1 state1 = some s1 →
      citySlugHook ((id1, s1) :: docs) id2 name2 state2 = some s2 →
      s1 ≠ s2) := by
  have hlen : ∀ (a b : String), a ≠ a ++ "-" ++ b := by
    intro a b heq
    have hl := congrArg String.length heq
    rw [String.length_append, String.length_append] at hl
    have h1 : ("-" : String).length = 1 := rfl
    omega
  refine ⟨?_, ?_, ?_⟩
  · intro docs id1 id2 t1 t2 dl1 dl2 n1 n2 e1 e2 h1 h2 hcol hid hfresh
    have hbase1 := existsOtherWithSlug_false docs id1 (slugify e1) hfresh
    have hs1 : articleSlugHook docs id1 t1 dl1 n1 = slugify e1 := by
      unfold articleSlugHook
      rw [h1]
      simp only [hbase1, Bool.false_eq_true, if_false]
    have hexists : existsOtherWithSlug ((id1, slugify e1) :: docs) id2 (slugify e2) = true := by
      unfold existsOtherWithSlug
      rw [List.any_cons]
      simp [hcol, hid]
    have hs2 : articleSlugHook ((id1, slugify e1) :: docs) id2 t2 dl2 n2
        = slugify e2 ++ "-" ++ toString n2 := by
      unfold articleSlugHook
      rw [h2]
      simp only [hexists, if_true]
    rw [hs1, hs2, ← hcol]
    exact hlen (slugify e1) (toString n2)
  · intro docs id1 id2 name1 name2 n1 n2 e1 e2 s1 s2 h1 h2 hcol hid hfresh hc1 hc2
    have hbase1 := existsOtherWithSlug_false docs id1 (slugify e1) hfresh
    have hs1 : s1 = slugify e1 := by
      unfold categorySlugHook at hc1
      simp [h1, hbase1] at hc1
      exact hc1.symm
    subst hs1
    have hexists : existsOtherWithSlug ((id1, slugify e1) :: docs) id2 (slugify e2) = true := by
      unfold existsOtherWithSlug
      rw [List.any_cons]
      simp [hcol, hid]
    have hs2 : s2 = slugify e2 ++ "-" ++ toString n2 := by
      unfold categorySlugHook at hc2
      simp [h2, hexists] at hc2
      exact hc2.symm
    rw [hs2, ← hcol]
    exact hlen (slugify e1) (toString n2)
  · intro docs id1 id2 name1 name2 state1 state2 e1 e2 st s1 s2
      h1 h2 hcol hid hfresh hst hc1 hc2
    have hbase1 := existsOtherWithSlug_false docs id1 (slugify e1) hfresh
    have hs1 : s1 = slugify e1 := by
      unfold citySlugHook at hc1
      cases hts : jsTruthyOpt (mapGet state1 "en") with
      | none =>
        simp [h1, hts, hbase1] at hc1
        exact hc1.symm
      | some st1 =>
        simp [h1, hts, hbase1] at hc1
        exact hc1.symm
    subst hs1
    have hexists : existsOtherWithSlug ((id1, slugify e1) :: docs) id2 (slugify e2) = true := by
      unfold existsOtherWithSlug
      rw [List.any_cons]
      simp [hcol, hid]
    have hs2 : s2 = slugify e2 ++ "-" ++ slugify st := by
      unfold citySlugHook at hc2
      simp [h2, hexists, hst] at hc2
      exact hc2.symm
    rw [hs2, ← hcol]
    exact hlen (slugify e1) (slugify st)

/-- Witness for the amended C7: two articles titled Hello in English,
saved at times 3 and 7 into an empty collection, get distinct slugs. -/
theorem C7_witness :
    articleSlugHook [] 1 [("en", "Hello")] "en" 3 ≠
      articleSlugHook [(1, articleSlugHook [] 1 [("en", "Hello")] "en" 3)] 2
        [("en", "Hello")] "en" 7 :=
  C7_slug_collision_amended.1 [] 1 2 [("en", "Hello")] [("en", "Hello")] "en" "en" 3 7
    "Hello" "Hello" (by decide) (by decide) rfl (by decide) (by intro p hp; simp at hp)

end TaajaNews
